import Mathlib

/-!
Verification of the core logic of the cbc-news repository.

The development shallowly embeds two components and the glue around them:

* `containsJavaScript` — the content safety classifier of
  `src/app/api/rss/route.ts` (lines 37–75), translated rule by rule.
* `formatDate` / `calculateAnniversaryBasedDiff` — the relative-time
  formatter of `src/app/components/StoryCard.tsx` (lines 28–120),
  including the JavaScript `NaN` propagation on an invalid `Date`.
* `assemble` — the per-item mapping/filtering pipeline of the `GET`
  handler of `src/app/api/rss/route.ts` (lines 82–112).

Strings are embedded as `List Char`.  JavaScript case-insensitive
matching is modelled for the ASCII range: `toLowerCase`, the regular
expression classes `\s`, `\b` and the `i` flag agree with this model on
all ASCII text, which is the domain the repository's rules and tests
exercise.
-/

abbrev Str := List Char

/-- The character class `\s` of a JavaScript regular expression
(ECMAScript WhiteSpace ∪ LineTerminator), by code point. -/
def jsWsN (n : Nat) : Bool :=
  n = 9 || n = 10 || n = 11 || n = 12 || n = 13 || n = 32 ||
  n = 160 || n = 5760 || (8192 ≤ n && n ≤ 8202) || n = 8232 ||
  n = 8233 || n = 8239 || n = 8287 || n = 12288 || n = 65279

def jsWs (c : Char) : Bool := jsWsN c.toNat

/-- The word characters `[A-Za-z0-9_]` of the regular expression
boundary assertion `\b` (no `u` flag is used in the source). -/
def wordCharN (n : Nat) : Bool :=
  (65 ≤ n && n ≤ 90) || (97 ≤ n && n ≤ 122) || (48 ≤ n && n ≤ 57) || n = 95

def wordChar (c : Char) : Bool := wordCharN c.toNat

/-- `String.prototype.toLowerCase`, modelled on the ASCII range:
`A`–`Z` map to `a`–`z`, all other characters are fixed. -/
def lowerChar (c : Char) : Char :=
  if 65 ≤ c.toNat && c.toNat ≤ 90 then Char.ofNat (c.toNat + 32) else c

def lowerStr (s : Str) : Str := s.map lowerChar

/-- `leadsWith p s` holds when `p` is an initial segment of `s`. -/
def leadsWith : Str → Str → Bool
  | [], _ => true
  | _ :: _, [] => false
  | p :: ps, c :: cs => p == c && leadsWith ps cs

/-- Greedy consumption of `\s*`. -/
def dropWs (s : Str) : Str := s.dropWhile jsWs

/-- The pattern `<script` of the rule `/<script[\s>]/`. -/
def scriptPat : Str := "<script".toList

/-- The pattern of the rule `/javascript:/i`. -/
def jsProtoPat : Str := "javascript:".toList

/-- Head check for the class `[\s>]`. -/
def headScriptEnd : Str → Bool
  | c :: _ => jsWs c || c == '>'
  | [] => false

/-- Head check for a single literal character. -/
def headIs (stop : Char) : Str → Bool
  | c :: _ => c == stop
  | [] => false

/-- Position check for `/<script[\s>]/`: the suffix starts with
`<script` followed by a whitespace character or `>`. -/
def scriptAt (_prev : Option Char) (s : Str) : Bool :=
  leadsWith scriptPat s && headScriptEnd (s.drop scriptPat.length)

/-- Position check for `/javascript:/i` (applied to lowercased text). -/
def protoAt (_prev : Option Char) (s : Str) : Bool :=
  leadsWith jsProtoPat s

/-- `\b` before a word character: matches at the start of the text or
after a non-word character.  All names this file scans for start with a
word character, so this is the full boundary condition. -/
def boundaryOk (prev : Option Char) : Bool :=
  match prev with
  | none => true
  | some c => !wordChar c

/-- Position check for `` `\\b${name}\\s*${stop}` ``: a word boundary,
the name, optional whitespace, then the character `stop` (`=` for the
event-handler rules, `(` for the call rules). -/
def nameWsThenAt (name : Str) (stop : Char) (prev : Option Char) (s : Str) : Bool :=
  boundaryOk prev && leadsWith name s && headIs stop (dropWs (s.drop name.length))

/-- `RegExp.prototype.test`: try the position check at every position of
the text, remembering the preceding character for `\b`. -/
def scanAux (p : Option Char → Str → Bool) : Option Char → Str → Bool
  | prev, [] => p prev []
  | prev, c :: cs => p prev (c :: cs) || scanAux p (some c) cs

def scan (p : Option Char → Str → Bool) (s : Str) : Bool := scanAux p none s

/-- The enumerated inline event-handler attribute names of
`containsJavaScript` (src/app/api/rss/route.ts lines 53–61). -/
def eventHandlers : List Str :=
  ["onclick".toList, "onerror".toList, "onload".toList, "onmouseover".toList,
   "onmouseout".toList, "onfocus".toList, "onblur".toList, "onchange".toList,
   "onsubmit".toList, "onkeydown".toList, "onkeypress".toList, "onkeyup".toList,
   "onabort".toList, "onbeforeunload".toList, "ondblclick".toList,
   "ondrag".toList, "ondragend".toList, "ondragenter".toList,
   "ondragleave".toList, "ondragover".toList, "ondragstart".toList,
   "ondrop".toList, "oninput".toList, "oninvalid".toList,
   "onmousedown".toList, "onmousemove".toList, "onmouseup".toList,
   "onreset".toList, "onresize".toList, "onscroll".toList,
   "onselect".toList, "onunload".toList]

/-- The names of the call rules `/\beval\s*\(/i`, `/\bsetTimeout\s*\(/i`,
`/\bsetInterval\s*\(/i`, lowercased (the `i` flag on an ASCII pattern is
modelled by matching the lowercase pattern against lowercased text). -/
def callNames : List Str :=
  ["eval".toList, "settimeout".toList, "setinterval".toList]

/-- `containsJavaScript` of `src/app/api/rss/route.ts`, lines 37–75.
The source lowercases the content for the `<script` rule and uses the
`i` flag for the remaining rules; both are modelled by matching the
lowercase patterns against the lowercased content (equivalent for the
ASCII case model: `lowerChar` fixes every non-word, whitespace, `=`,
`(`, `>` and `:` character and maps letters onto letters). -/
def containsJavaScript (content : Str) : Bool :=
  if content.isEmpty then false
  else
    let lc := lowerStr content
    scan scriptAt lc ||
    scan protoAt lc ||
    eventHandlers.any (fun h => scan (nameWsThenAt h '=') lc) ||
    callNames.any (fun n => scan (nameWsThenAt n '(') lc)

/-!
## JavaScript numbers and dates

The formatter manipulates millisecond timestamps and calendar getters.
All values reached by the source are integers, except that an invalid
`Date` makes every derived quantity `NaN`.  A JavaScript number is
therefore embedded as `Option Int`, `none` standing for `NaN`, with the
ECMAScript operator semantics: arithmetic propagates `NaN`, every
comparison with `NaN` is false, `Math.max` propagates `NaN`, and
template-literal rendering of `NaN` is the string `"NaN"`.
-/

abbrev JNum := Option Int

def jadd (a b : JNum) : JNum := Option.bind a fun x => Option.map (x + ·) b

def jsub (a b : JNum) : JNum := Option.bind a fun x => Option.map (x - ·) b

def jmul (a b : JNum) : JNum := Option.bind a fun x => Option.map (x * ·) b

/-- `Math.floor(x / k)` for a positive integer literal `k`. -/
def jfdiv (a : JNum) (k : Int) : JNum := Option.map (Int.fdiv · k) a

/-- `x < y`; false when either side is `NaN`. -/
def jlt : JNum → JNum → Bool
  | some x, some y => decide (x < y)
  | _, _ => false

/-- `x > y`; false when either side is `NaN`. -/
def jgt : JNum → JNum → Bool
  | some x, some y => decide (x > y)
  | _, _ => false

/-- `Math.max(x, 0)`: `NaN` propagates. -/
def jmax0 : JNum → JNum
  | some x => some (max x 0)
  | none => none

/-- `Math.min(x, y)`: `NaN` propagates. -/
def jmin : JNum → JNum → JNum
  | some x, some y => some (min x y)
  | _, _ => none

/-- Decimal digits of a natural number, fuel-structured so that the
kernel can evaluate it. -/
def natDigitsGo : Nat → Nat → Str
  | 0, _ => []
  | fuel + 1, n =>
    if n < 10 then [Char.ofNat (48 + n)]
    else natDigitsGo fuel (n / 10) ++ [Char.ofNat (48 + n % 10)]

def renderNat (n : Nat) : Str := natDigitsGo (n + 1) n

def renderInt (i : Int) : Str :=
  if i < 0 then '-' :: renderNat i.natAbs else renderNat i.toNat

/-- Template-literal rendering `${x}` of a number. -/
def jrender : JNum → Str
  | some i => renderInt i
  | none => "NaN".toList

/-!
## The calendar model

`daysFromCivil` is the standard proleptic-Gregorian day-number
computation (days since 1970-01-01) for a normalized date (1-based
month in `1..12`, day `1` used as anchor).  `makeDay` is ECMAScript
`MakeDay`: the 0-based month argument is first folded into the year,
and the day argument is added as an offset from day 1 of that month, so
an out-of-range day rolls into the following months exactly as
`new Date(y, m, d)` does.
-/

def daysFromCivil (y m d : Int) : Int :=
  let y' := if m ≤ 2 then y - 1 else y
  let era := y'.fdiv 400
  let yoe := y' - era * 400
  let doy := (153 * (if m > 2 then m - 3 else m + 9) + 2).fdiv 5 + d - 1
  let doe := yoe * 365 + yoe.fdiv 4 - yoe.fdiv 100 + doy
  era * 146097 + doe - 719468

/-- ECMAScript `MakeDay(year, month, date)` (month 0-based, any range),
as a day number since the epoch. -/
def makeDay (year month date : Int) : Int :=
  let ym := year + month.fdiv 12
  let mn := month.emod 12
  daysFromCivil ym (mn + 1) 1 + (date - 1)

def msPerDay : Int := 86400000

/-- A valid JavaScript `Date` as seen through its local-time getters
`getFullYear` / `getMonth` (0-based) / `getDate`, plus the time of day
in milliseconds.  The model fixes a DST-free local time zone, so
`getTime` is determined by the getters. -/
structure JSDate where
  year : Int
  month : Int
  day : Int
  tod : Int
  deriving DecidableEq, Repr

/-- `Date.prototype.getTime` of a valid date. -/
def getTime (d : JSDate) : Int := makeDay d.year d.month d.day * msPerDay + d.tod

/-- Getters of a possibly invalid date (`none` = Invalid Date, whose
getters all return `NaN`). -/
def jGetTime (d : Option JSDate) : JNum := Option.map getTime d

def jGetFullYear (d : Option JSDate) : JNum := Option.map JSDate.year d

def jGetMonth (d : Option JSDate) : JNum := Option.map JSDate.month d

def jGetDate (d : Option JSDate) : JNum := Option.map JSDate.day d

/-- `new Date(y, m, d, 0, 0, 0, 0).getTime()` with possibly-`NaN`
arguments: any `NaN` argument gives an invalid date (`NaN` time). -/
def jMakeTime (y m d : JNum) : JNum :=
  match y, m, d with
  | some y, some m, some d => some (makeDay y m d * msPerDay)
  | _, _, _ => none

/-- `new Date(y, mArg, 0).getDate()`: day `0` of month `mArg` is the
last day of month `mArg - 1`, whose day-of-month equals the length of
that month, i.e. the distance between the first days of the two
consecutive months. -/
def jLastDateOfPriorMonth (y mArg : JNum) : JNum :=
  match y, mArg with
  | some y, some mArg => some (makeDay y mArg 1 - makeDay y (mArg - 1) 1)
  | _, _ => none

/-!
## The relative-time formatter (src/app/components/StoryCard.tsx)
-/

inductive DiffUnit where
  | month
  | year
  deriving DecidableEq, Repr

/-- `calculateAnniversaryBasedDiff` of `src/app/components/StoryCard.tsx`
(lines 28–56), transcribed statement by statement.  `startDate` may be an
invalid date (the parse of the feed timestamp); `endDate` is `new Date()`
and is always valid. -/
def calculateAnniversaryBasedDiff (startDate : Option JSDate) (endDate : JSDate)
    (unit : DiffUnit) : JNum :=
  let nowMidnight : JNum := some (makeDay endDate.year endDate.month endDate.day * msPerDay)
  match unit with
  | .month =>
    let diff := jadd (jmul (jsub (some endDate.year) (jGetFullYear startDate)) (some 12))
                     (jsub (some endDate.month) (jGetMonth startDate))
    let anniversary := jMakeTime (some endDate.year) (some endDate.month) (jGetDate startDate)
    let diff' := if jlt nowMidnight anniversary then jsub diff (some 1) else diff
    jmax0 diff'
  | .year =>
    let diff := jsub (some endDate.year) (jGetFullYear startDate)
    let lastDayOfAnniversaryMonth :=
      jLastDateOfPriorMonth (some endDate.year) (jadd (jGetMonth startDate) (some 1))
    let anniversaryDay := jmin (jGetDate startDate) lastDayOfAnniversaryMonth
    let anniversary := jMakeTime (some endDate.year) (jGetMonth startDate) anniversaryDay
    let diff' := if jlt nowMidnight anniversary then jsub diff (some 1) else diff
    jmax0 diff'

def monthNames : List Str :=
  ["January".toList, "February".toList, "March".toList, "April".toList,
   "May".toList, "June".toList, "July".toList, "August".toList,
   "September".toList, "October".toList, "November".toList, "December".toList]

def pad2 (n : Int) : Str :=
  if 0 ≤ n ∧ n < 10 then '0' :: renderInt n else renderInt n

/-- `date.toLocaleDateString('en-US', { year: 'numeric', month: 'long',
day: 'numeric', hour: '2-digit', minute: '2-digit' })` of a valid date,
modelled as the fixed en-US long rendering
`"January 15, 2024, 10:30 AM"`. -/
def toLocaleRender (d : JSDate) : Str :=
  let hour24 := d.tod.fdiv 3600000
  let minute := (d.tod.emod 3600000).fdiv 60000
  let hour12 := if hour24.emod 12 = 0 then 12 else hour24.emod 12
  let suffix := if hour24.emod 24 < 12 then " AM".toList else " PM".toList
  (monthNames.getD d.month.toNat []) ++ (' ' :: renderInt d.day) ++
    (',' :: ' ' :: renderInt d.year) ++ (',' :: ' ' :: pad2 hour12) ++
    (':' :: pad2 minute) ++ suffix

/-- `toLocaleDateString` including the invalid date, which renders as
the fixed string `"Invalid Date"` (ECMA-402). -/
def jToLocale : Option JSDate → Str
  | some d => toLocaleRender d
  | none => "Invalid Date".toList

structure RelativeTimeResult where
  relativeTime : Str
  absoluteTime : Str
  deriving DecidableEq, Repr

/-- `` `${n} unit${n !== 1 ? 's' : ''} ago` `` — one rung of the ladder. -/
def agoText (n : JNum) (unit : Str) : Str :=
  jrender n ++ unit ++ (if n = some 1 then [] else ['s']) ++ " ago".toList

/-- `formatDate` of `src/app/components/StoryCard.tsx` (lines 58–120).

`parsed` is the value of `new Date(dateString)`: `none` for an Invalid
Date (the constructor never throws on a string, it produces a `Date`
whose getters are all `NaN`), `some d` for a successful parse.  `now` is
`new Date()`.  The `catch` branch of the source (returning the original
text in both fields) is unreachable: neither the `Date` constructor nor
`toLocaleDateString` throws for any string input, so it has no
counterpart here. -/
def formatDate (dateString : Str) (parsed : Option JSDate) (now : JSDate) :
    RelativeTimeResult :=
  if dateString.isEmpty then ⟨[], []⟩
  else
    let dateT := jGetTime parsed
    let nowT : JNum := some (getTime now)
    if jgt dateT nowT then
      ⟨"in the future".toList, jToLocale parsed⟩
    else
      let diffMs := jsub nowT dateT
      let diffSeconds := jfdiv diffMs 1000
      let diffMinutes := jfdiv diffSeconds 60
      let diffHours := jfdiv diffMinutes 60
      let diffDays := jfdiv diffHours 24
      let diffWeeks := jfdiv diffDays 7
      let diffMonths := calculateAnniversaryBasedDiff parsed now .month
      let diffYears := calculateAnniversaryBasedDiff parsed now .year
      let relativeTime :=
        if jlt diffSeconds (some 60) then "Just now".toList
        else if jlt diffMinutes (some 60) then agoText diffMinutes " minute".toList
        else if jlt diffHours (some 24) then agoText diffHours " hour".toList
        else if jlt diffDays (some 7) then agoText diffDays " day".toList
        else if jlt diffWeeks (some 4) then agoText diffWeeks " week".toList
        else if jlt diffMonths (some 12) then agoText diffMonths " month".toList
        else agoText diffYears " year".toList
      ⟨relativeTime, jToLocale parsed⟩

/-!
## The feed assembler (GET of src/app/api/rss/route.ts, lines 82–112)
-/

/-- A raw item from the feed provider; `none` models an absent
(`undefined`) field. -/
structure RawItem where
  title : Option Str
  link : Option Str
  pubDate : Option Str
  contentSnippet : Option Str
  content : Option Str
  deriving DecidableEq, Repr

/-- A filtered item (`RSSItem` of the route). -/
structure RSSItem where
  title : Str
  link : Str
  pubDate : Str
  contentSnippet : Option Str
  content : Option Str
  deriving DecidableEq, Repr

/-- JavaScript `a || b` on an optional string: `undefined` and the empty
string are falsy. -/
def jsOrEmpty (a : Option Str) (b : Str) : Str :=
  match a with
  | some s => if s.isEmpty then b else s
  | none => b

/-- `item.content || item.contentSnippet || ''`. -/
def effectiveContent (item : RawItem) : Str :=
  jsOrEmpty item.content (jsOrEmpty item.contentSnippet [])

/-- The body of the `map` callback in `GET`: reject on
`containsJavaScript`, then validate the defaulted link and date with the
branded-type factories (whose failure is caught and turns the item into
`null`).  The factories are passed as parameters `vL` / `vD`:
`vL s = true` iff `createStoryLink s` succeeds, `vD s = true` iff
`createDateString s` succeeds. -/
def processItem (vL vD : Str → Bool) (item : RawItem) : Option RSSItem :=
  if containsJavaScript (effectiveContent item) then none
  else
    let link := jsOrEmpty item.link []
    let pubDate := jsOrEmpty item.pubDate []
    if vL link && vD pubDate then
      some ⟨jsOrEmpty item.title [], link, pubDate, item.contentSnippet, item.content⟩
    else none

/-- `feed.items.map(...).filter(item => item !== null)` — the feed
assembler. -/
def assemble (vL vD : Str → Bool) (items : List RawItem) : List RSSItem :=
  items.filterMap (processItem vL vD)

/-- `createStoryLink` of `app/types/index.ts`: the factory throws on a
falsy (empty) link, otherwise validates it by constructing
`new URL(link)` and throws iff the constructor does.  Whether the WHATWG
URL parser accepts a given string is a fact of the JavaScript
environment and is taken as the oracle `urlOk`; the factory's own
control flow (empty-string rejection first, then the parser verdict) is
embedded.  The result is `true` iff the factory returns normally. -/
def createStoryLink (urlOk : Str → Bool) (link : Str) : Bool :=
  if link.isEmpty then false else urlOk link

/-- `createDateString` of `app/types/index.ts`: the factory throws on a
falsy (empty) date, otherwise requires `new Date(date).getTime()` not to
be `NaN`.  Whether the ECMAScript date parser accepts a given string is
environment-defined (implementation-dependent beyond the ISO formats)
and is taken as the oracle `dateOk`.  The result is `true` iff the
factory returns normally. -/
def createDateString (dateOk : Str → Bool) (date : Str) : Bool :=
  if date.isEmpty then false else dateOk date

/-- The all-accepting oracle.  A run of the assembler on items whose
missing link or timestamp defaults to the empty string never consults
the oracle (the factories reject the empty string first), so
instantiating such runs with `anyStr` yields closed statements whose
outcome is the same for every oracle — in particular for the real
`new URL` / `new Date`. -/
def anyStr : Str → Bool := fun _ => true


/-!
## Specification-side matching predicates

The spec states the classifier rules as properties of the text ("the
content contains …"); the following predicates transcribe those words
as explicit decompositions, to be proved equivalent to the
regular-expression scanner above.
-/

/-- The text before an occurrence ends in a word boundary: it is empty
or its last character is not a word character. -/
def BoundaryBefore (u : Str) : Prop :=
  ∀ c, u.getLast? = some c → wordChar c = false

/-- Rule 1 of the spec: an opening `<script` tag boundary — the literal
`<script` followed by whitespace or `>` — occurs somewhere in `t`. -/
def ScriptOcc (t : Str) : Prop :=
  ∃ u c v, t = u ++ (scriptPat ++ c :: v) ∧ (jsWs c = true ∨ c = '>')

/-- Rule 2 of the spec: the literal scheme `javascript:` occurs
anywhere in `t`. -/
def ProtoOcc (t : Str) : Prop :=
  ∃ u v, t = u ++ (jsProtoPat ++ v)

/-- Rules 3 and 4 of the spec: a word-bounded `name` followed by
optional whitespace and the character `stop` occurs in `t`. -/
def NameThenOcc (name : Str) (stop : Char) (t : Str) : Prop :=
  ∃ u w v, t = u ++ (name ++ (w ++ stop :: v)) ∧ w.all jsWs = true ∧ BoundaryBefore u

/-- The spec's verdict: REJECTED iff one of the four rule families
matches the case-normalized content. -/
def SpecRejected (s : Str) : Prop :=
  ScriptOcc (lowerStr s) ∨ ProtoOcc (lowerStr s) ∨
    (∃ h, h ∈ eventHandlers ∧ NameThenOcc h '=' (lowerStr s)) ∨
    (∃ n, n ∈ callNames ∧ NameThenOcc n '(' (lowerStr s))

/-!
## Scanner correctness
-/

/-- The character just before the current position: the last character
of the consumed text, or the character before the whole scan. -/
def lastOr (prev : Option Char) : Str → Option Char
  | [] => prev
  | c :: cs => lastOr (some c) cs

theorem lastOr_eq_or (prev : Option Char) (u : Str) :
    lastOr prev u = u.getLast?.or prev := by
  induction u generalizing prev with
  | nil => rfl
  | cons c cs ih =>
    cases cs with
    | nil => simp [lastOr, ih]
    | cons d cs' =>
      rw [show lastOr prev (c :: d :: cs') = lastOr (some c) (d :: cs') from rfl, ih]
      rw [List.getLast?_cons_cons]
      cases h : (d :: cs').getLast? with
      | some e => rfl
      | none => exact absurd (List.getLast?_eq_none_iff.mp h) (by simp)

theorem scanAux_eq_true_iff (p : Option Char → Str → Bool) (l : Str) :
    ∀ prev, scanAux p prev l = true ↔ ∃ u v, l = u ++ v ∧ p (lastOr prev u) v = true := by
  induction l with
  | nil =>
    intro prev
    constructor
    · intro h
      exact ⟨[], [], rfl, h⟩
    · rintro ⟨u, v, huv, hp⟩
      obtain ⟨rfl, rfl⟩ := List.append_eq_nil.mp huv.symm
      exact hp
  | cons c cs ih =>
    intro prev
    rw [show scanAux p prev (c :: cs) = (p prev (c :: cs) || scanAux p (some c) cs) from rfl]
    rw [Bool.or_eq_true, ih]
    constructor
    · rintro (h | ⟨u, v, rfl, hp⟩)
      · exact ⟨[], c :: cs, rfl, h⟩
      · exact ⟨c :: u, v, rfl, hp⟩
    · rintro ⟨u, v, huv, hp⟩
      cases u with
      | nil => exact Or.inl (huv ▸ hp)
      | cons c' u' =>
        rw [List.cons_append, List.cons.injEq] at huv
        obtain ⟨rfl, huv2⟩ := huv
        exact Or.inr ⟨u', v, huv2, hp⟩

theorem scan_eq_true_iff (p : Option Char → Str → Bool) (t : Str) :
    scan p t = true ↔ ∃ u v, t = u ++ v ∧ p (lastOr none u) v = true :=
  scanAux_eq_true_iff p t none

theorem leadsWith_iff (p s : Str) : leadsWith p s = true ↔ ∃ v, s = p ++ v := by
  induction p generalizing s with
  | nil => simp [leadsWith]
  | cons a ps ih =>
    cases s with
    | nil =>
      simp only [leadsWith, List.cons_append]
      constructor
      · intro h; cases h
      · rintro ⟨v, hv⟩; cases hv
    | cons c cs =>
      rw [show leadsWith (a :: ps) (c :: cs) = (a == c && leadsWith ps cs) from rfl]
      rw [Bool.and_eq_true, beq_iff_eq, ih]
      constructor
      · rintro ⟨rfl, v, rfl⟩; exact ⟨v, rfl⟩
      · rintro ⟨v, hv⟩
        rw [List.cons_append, List.cons.injEq] at hv
        exact ⟨hv.1.symm, v, hv.2⟩

theorem headIs_iff (stop : Char) (m : Str) :
    headIs stop m = true ↔ ∃ v, m = stop :: v := by
  cases m with
  | nil => simp [headIs]
  | cons c cs =>
    rw [show headIs stop (c :: cs) = (c == stop) from rfl, beq_iff_eq]
    constructor
    · rintro rfl; exact ⟨cs, rfl⟩
    · rintro ⟨v, hv⟩; rw [List.cons.injEq] at hv; exact hv.1

theorem headScriptEnd_iff (m : Str) :
    headScriptEnd m = true ↔ ∃ c v, m = c :: v ∧ (jsWs c = true ∨ c = '>') := by
  cases m with
  | nil => simp [headScriptEnd]
  | cons c cs =>
    rw [show headScriptEnd (c :: cs) = (jsWs c || c == '>') from rfl]
    rw [Bool.or_eq_true, beq_iff_eq]
    constructor
    · intro h; exact ⟨c, cs, rfl, h⟩
    · rintro ⟨c', v, hv, h⟩
      rw [List.cons.injEq] at hv
      obtain ⟨rfl, rfl⟩ := hv
      exact h

theorem headIs_dropWs_iff (stop : Char) (hstop : jsWs stop = false) (m : Str) :
    headIs stop (dropWs m) = true ↔ ∃ w v, m = w ++ stop :: v ∧ w.all jsWs = true := by
  constructor
  · intro h
    obtain ⟨v, hv⟩ := (headIs_iff stop (dropWs m)).mp h
    refine ⟨m.takeWhile jsWs, v, ?_, ?_⟩
    · conv_lhs => rw [← List.takeWhile_append_dropWhile jsWs m]
      rw [show dropWs m = m.dropWhile jsWs from rfl] at hv
      rw [hv]
    · rw [List.all_eq_true]
      intro x hx
      exact List.mem_takeWhile_imp hx
  · rintro ⟨w, v, rfl, hw⟩
    rw [List.all_eq_true] at hw
    induction w with
    | nil =>
      rw [show dropWs ([] ++ stop :: v) = dropWs (stop :: v) from rfl]
      rw [show dropWs (stop :: v) = if jsWs stop then dropWs v else stop :: v from
        List.dropWhile_cons ..]
      rw [if_neg (by simp [hstop])]
      simp [headIs]
    | cons a w' ih =>
      have ha : jsWs a = true := hw a (by simp)
      rw [List.cons_append, show dropWs (a :: (w' ++ stop :: v)) =
        if jsWs a then dropWs (w' ++ stop :: v) else a :: (w' ++ stop :: v) from
        List.dropWhile_cons ..]
      rw [if_pos (by simp [ha])]
      exact ih fun x hx => hw x (by simp [hx])

theorem boundaryOk_lastOr_iff (u : Str) :
    boundaryOk (lastOr none u) = true ↔ BoundaryBefore u := by
  rw [lastOr_eq_or none u]
  cases h : u.getLast? with
  | none =>
    simp only [Option.or_none, boundaryOk, BoundaryBefore, true_iff]
    intro c hc
    rw [h] at hc
    cases hc
  | some c =>
    simp only [Option.or_some, boundaryOk, BoundaryBefore, Bool.not_eq_true']
    constructor
    · intro hw c' hc'
      rw [h, Option.some.injEq] at hc'
      exact hc' ▸ hw
    · intro hall
      exact hall c h

theorem scan_scriptAt_iff (t : Str) : scan scriptAt t = true ↔ ScriptOcc t := by
  rw [scan_eq_true_iff, ScriptOcc]
  constructor
  · rintro ⟨u, v, rfl, hp⟩
    rw [scriptAt, Bool.and_eq_true, leadsWith_iff] at hp
    obtain ⟨⟨v', rfl⟩, hend⟩ := hp
    rw [List.drop_left] at hend
    obtain ⟨c, v'', rfl, hc⟩ := (headScriptEnd_iff v').mp hend
    exact ⟨u, c, v'', rfl, hc⟩
  · rintro ⟨u, c, v, rfl, hc⟩
    refine ⟨u, scriptPat ++ c :: v, rfl, ?_⟩
    rw [scriptAt, Bool.and_eq_true, leadsWith_iff, List.drop_left]
    exact ⟨⟨c :: v, rfl⟩, (headScriptEnd_iff _).mpr ⟨c, v, rfl, hc⟩⟩

theorem scan_protoAt_iff (t : Str) : scan protoAt t = true ↔ ProtoOcc t := by
  rw [scan_eq_true_iff, ProtoOcc]
  constructor
  · rintro ⟨u, v, rfl, hp⟩
    rw [protoAt, leadsWith_iff] at hp
    obtain ⟨v', rfl⟩ := hp
    exact ⟨u, v', rfl⟩
  · rintro ⟨u, v, rfl⟩
    refine ⟨u, jsProtoPat ++ v, rfl, ?_⟩
    rw [protoAt, leadsWith_iff]
    exact ⟨v, rfl⟩

theorem scan_nameWsThenAt_iff (name : Str) (stop : Char) (hstop : jsWs stop = false)
    (t : Str) : scan (nameWsThenAt name stop) t = true ↔ NameThenOcc name stop t := by
  rw [scan_eq_true_iff, NameThenOcc]
  constructor
  · rintro ⟨u, v, rfl, hp⟩
    rw [nameWsThenAt, Bool.and_eq_true, Bool.and_eq_true, leadsWith_iff] at hp
    obtain ⟨⟨hb, v', rfl⟩, hws⟩ := hp
    rw [List.drop_left] at hws
    obtain ⟨w, v'', rfl, hw⟩ := (headIs_dropWs_iff stop hstop v').mp hws
    exact ⟨u, w, v'', rfl, hw, (boundaryOk_lastOr_iff u).mp hb⟩
  · rintro ⟨u, w, v, rfl, hw, hb⟩
    refine ⟨u, name ++ (w ++ stop :: v), rfl, ?_⟩
    rw [nameWsThenAt, Bool.and_eq_true, Bool.and_eq_true, leadsWith_iff, List.drop_left]
    exact ⟨⟨(boundaryOk_lastOr_iff u).mpr hb, ⟨w ++ stop :: v, rfl⟩⟩,
      (headIs_dropWs_iff stop hstop _).mpr ⟨w, v, rfl, hw⟩⟩

theorem specRejected_nil_false : ¬ SpecRejected [] := by
  rintro (⟨u, c, v, h, -⟩ | ⟨u, v, h⟩ | ⟨n, -, u, w, v, h, -, -⟩ | ⟨n, -, u, w, v, h, -, -⟩)
  · obtain ⟨-, h2⟩ := List.append_eq_nil.mp h.symm
    obtain ⟨h3, -⟩ := List.append_eq_nil.mp h2
    exact absurd h3 (by simp [scriptPat])
  · obtain ⟨-, h2⟩ := List.append_eq_nil.mp h.symm
    obtain ⟨h3, -⟩ := List.append_eq_nil.mp h2
    exact absurd h3 (by simp [jsProtoPat])
  · obtain ⟨-, h2⟩ := List.append_eq_nil.mp h.symm
    obtain ⟨-, h3⟩ := List.append_eq_nil.mp h2
    obtain ⟨-, h4⟩ := List.append_eq_nil.mp h3
    cases h4
  · obtain ⟨-, h2⟩ := List.append_eq_nil.mp h.symm
    obtain ⟨-, h3⟩ := List.append_eq_nil.mp h2
    obtain ⟨-, h4⟩ := List.append_eq_nil.mp h3
    cases h4

/-- The classifier agrees with the spec's four rule families on every
input. -/
theorem containsJavaScript_iff_spec (s : Str) :
    containsJavaScript s = true ↔ SpecRejected s := by
  cases s with
  | nil =>
    rw [show containsJavaScript [] = false from rfl]
    simp only [Bool.false_eq_true, false_iff]
    exact specRejected_nil_false
  | cons a s' =>
    rw [containsJavaScript, if_neg (by simp)]
    simp only [Bool.or_eq_true, List.any_eq_true]
    rw [scan_scriptAt_iff, scan_protoAt_iff, SpecRejected]
    constructor
    · rintro (((h | h) | ⟨n, hn, hs⟩) | ⟨n, hn, hs⟩)
      · exact Or.inl h
      · exact Or.inr (Or.inl h)
      · exact Or.inr (Or.inr (Or.inl ⟨n, hn,
          (scan_nameWsThenAt_iff n '=' (by decide) _).mp hs⟩))
      · exact Or.inr (Or.inr (Or.inr ⟨n, hn,
          (scan_nameWsThenAt_iff n '(' (by decide) _).mp hs⟩))
    · rintro (h | h | ⟨n, hn, hs⟩ | ⟨n, hn, hs⟩)
      · exact Or.inl (Or.inl (Or.inl h))
      · exact Or.inl (Or.inl (Or.inr h))
      · exact Or.inl (Or.inr ⟨n, hn,
          (scan_nameWsThenAt_iff n '=' (by decide) _).mpr hs⟩)
      · exact Or.inr ⟨n, hn,
          (scan_nameWsThenAt_iff n '(' (by decide) _).mpr hs⟩

/-!
## Case-normalization facts

`lowerChar` moves only the letters `A`–`Z`; whitespace, `=`, `(` and
every non-word character are fixed, and the scanned names are already
lowercase.  These facts transport an occurrence in raw content to the
lowercased content the classifier scans.
-/

theorem lowerChar_of_ws {c : Char} (h : jsWs c = true) : lowerChar c = c := by
  rw [lowerChar, if_neg]
  rw [jsWs, jsWsN] at h
  simp only [Bool.or_eq_true, decide_eq_true_eq, Bool.and_eq_true] at h
  simp only [Bool.and_eq_true, decide_eq_true_eq, not_and, not_le]
  omega

theorem lowerChar_of_nonword {c : Char} (h : wordChar c = false) : lowerChar c = c := by
  rw [lowerChar, if_neg]
  rw [wordChar, wordCharN] at h
  simp only [Bool.or_eq_false_iff, Bool.and_eq_false_iff, decide_eq_false_iff_not,
    not_le] at h
  simp only [Bool.and_eq_true, decide_eq_true_eq, not_and, not_le]
  omega

theorem lowerStr_of_all_ws {w : Str} (h : w.all jsWs = true) : lowerStr w = w := by
  rw [List.all_eq_true] at h
  rw [lowerStr]
  induction w with
  | nil => rfl
  | cons a w' ih =>
    rw [List.map_cons, lowerChar_of_ws (h a (by simp)), ih fun x hx => h x (by simp [hx])]

/-!
## Specification-side time arithmetic

Transcriptions of §4.2 of the spec on plain integers (no `NaN`), to be
proved equal to the source transcription for every successfully parsed
timestamp.  Midnight instants are compared by day number; the source
compares them in milliseconds, which is the same order.
-/

/-- The whole-months count of the spec: the naive count
`(now.year − parsed.year) * 12 + (now.month − parsed.month)`,
decremented when `now` at midnight is before this month's anniversary
date built from `parsed`'s day-of-month (overflow rolls into the next
month), clamped at zero. -/
def monthsSpec (parsedD now : JSDate) : Int :=
  let naive := (now.year - parsedD.year) * 12 + (now.month - parsedD.month)
  let anniversary := makeDay now.year now.month parsedD.day
  let nowMid := makeDay now.year now.month now.day
  max (if nowMid < anniversary then naive - 1 else naive) 0

/-- The whole-years count of the spec: the naive count
`now.year − parsed.year`, decremented when `now` at midnight is before
this year's anniversary date built from `parsed`'s month and its
day-of-month clamped to that month's last valid day, clamped at zero. -/
def yearsSpec (parsedD now : JSDate) : Int :=
  let naive := now.year - parsedD.year
  let lastDay := makeDay now.year (parsedD.month + 1) 1 - makeDay now.year parsedD.month 1
  let anniversary := makeDay now.year parsedD.month (min parsedD.day lastDay)
  let nowMid := makeDay now.year now.month now.day
  max (if nowMid < anniversary then naive - 1 else naive) 0

def pluralS (n : Int) : Str := if n = 1 then [] else ['s']

/-- The label ladder of §4.2/§4.5 of the spec: elapsed whole seconds,
then successive integer divisions by 60, 60, 24, 7, calendar months and
years, and the first strict threshold `<60`, `<60`, `<24`, `<7`, `<4`,
`<12` selects the label, pluralizing unless the count is exactly 1. -/
def relLabelSpec (parsedD now : JSDate) : Str :=
  let secs := (getTime now - getTime parsedD).fdiv 1000
  let mins := secs.fdiv 60
  let hours := mins.fdiv 60
  let days := hours.fdiv 24
  let weeks := days.fdiv 7
  let months := monthsSpec parsedD now
  let years := yearsSpec parsedD now
  if secs < 60 then "Just now".toList
  else if mins < 60 then renderInt mins ++ " minute".toList ++ pluralS mins ++ " ago".toList
  else if hours < 24 then renderInt hours ++ " hour".toList ++ pluralS hours ++ " ago".toList
  else if days < 7 then renderInt days ++ " day".toList ++ pluralS days ++ " ago".toList
  else if weeks < 4 then renderInt weeks ++ " week".toList ++ pluralS weeks ++ " ago".toList
  else if months < 12 then renderInt months ++ " month".toList ++ pluralS months ++ " ago".toList
  else renderInt years ++ " year".toList ++ pluralS years ++ " ago".toList

theorem jadd_some (a b : Int) : jadd (some a) (some b) = some (a + b) := rfl

theorem jsub_some (a b : Int) : jsub (some a) (some b) = some (a - b) := rfl

theorem jmul_some (a b : Int) : jmul (some a) (some b) = some (a * b) := rfl

theorem jfdiv_some (a k : Int) : jfdiv (some a) k = some (a.fdiv k) := rfl

theorem jlt_some (a b : Int) : jlt (some a) (some b) = decide (a < b) := rfl

theorem msPerDay_pos : (0 : Int) < msPerDay := by decide

theorem mul_msPerDay_lt (a b : Int) : (a * msPerDay < b * msPerDay) ↔ a < b :=
  mul_lt_mul_right msPerDay_pos

/-- On a successfully parsed timestamp the source's month computation
agrees with the spec's transcription. -/
theorem calc_month_eq (parsedD now : JSDate) :
    calculateAnniversaryBasedDiff (some parsedD) now .month = some (monthsSpec parsedD now) := by
  rw [calculateAnniversaryBasedDiff, monthsSpec]
  simp only [jGetFullYear, jGetMonth, jGetDate, Option.map_some', jMakeTime,
    jsub_some, jmul_some, jadd_some, jlt_some]
  have hiff := mul_msPerDay_lt (makeDay now.year now.month now.day)
    (makeDay now.year now.month parsedD.day)
  by_cases h : makeDay now.year now.month now.day < makeDay now.year now.month parsedD.day
  · rw [if_pos (decide_eq_true (hiff.mpr h)), if_pos h]
    rfl
  · rw [if_neg (fun hd => h (hiff.mp (of_decide_eq_true hd))), if_neg h]
    rfl

/-- On a successfully parsed timestamp the source's year computation
agrees with the spec's transcription. -/
theorem calc_year_eq (parsedD now : JSDate) :
    calculateAnniversaryBasedDiff (some parsedD) now .year = some (yearsSpec parsedD now) := by
  rw [calculateAnniversaryBasedDiff, yearsSpec]
  simp only [jGetFullYear, jGetMonth, jGetDate, Option.map_some', jMakeTime,
    jLastDateOfPriorMonth, jsub_some, jadd_some, jmin, jlt_some]
  rw [show parsedD.month + 1 - 1 = parsedD.month by omega]
  have hiff := mul_msPerDay_lt (makeDay now.year now.month now.day)
    (makeDay now.year parsedD.month
      (min parsedD.day (makeDay now.year (parsedD.month + 1) 1 -
        makeDay now.year parsedD.month 1)))
  by_cases h : makeDay now.year now.month now.day < makeDay now.year parsedD.month
      (min parsedD.day (makeDay now.year (parsedD.month + 1) 1 -
        makeDay now.year parsedD.month 1))
  · rw [if_pos (decide_eq_true (hiff.mpr h)), if_pos h]
    rfl
  · rw [if_neg (fun hd => h (hiff.mp (of_decide_eq_true hd))), if_neg h]
    rfl

/-- For a successfully parsed timestamp not later than `now`, the
relative label computed by the source equals the spec's ladder. -/
theorem formatDate_rel_eq (ds : Str) (parsedD now : JSDate)
    (h1 : ds ≠ []) (h2 : getTime parsedD ≤ getTime now) :
    (formatDate ds (some parsedD) now).relativeTime = relLabelSpec parsedD now := by
  rw [formatDate, if_neg (by simp [List.isEmpty_iff, h1])]
  simp only [jGetTime, Option.map_some']
  rw [if_neg (by simp only [jgt, decide_eq_true_eq]; exact not_lt.mpr h2)]
  simp only [calc_month_eq, calc_year_eq, jsub_some, jfdiv_some, jlt_some,
    agoText, jrender, relLabelSpec, pluralS, Option.some.injEq, decide_eq_true_eq]

/-!
## Assembler lemmas
-/

theorem jsOrEmpty_some_nil (s : Str) : jsOrEmpty (some s) [] = s := by
  cases s with
  | nil => rfl
  | cons a t => rfl

/-- The kept/normalized form of a raw item. -/
def normalizeItem (i : RawItem) : RSSItem :=
  ⟨jsOrEmpty i.title [], jsOrEmpty i.link [], jsOrEmpty i.pubDate [],
    i.contentSnippet, i.content⟩

/-- The keep condition of the map callback: safe content and both
branded validations succeed. -/
def keepItem (vL vD : Str → Bool) (i : RawItem) : Bool :=
  !containsJavaScript (effectiveContent i) &&
    (vL (jsOrEmpty i.link []) && vD (jsOrEmpty i.pubDate []))

theorem processItem_eq_ite (vL vD : Str → Bool) (i : RawItem) :
    processItem vL vD i =
      if keepItem vL vD i then some (normalizeItem i) else none := by
  rw [processItem, keepItem, normalizeItem]
  by_cases hc : containsJavaScript (effectiveContent i) = true
  · rw [if_pos hc, hc]
    rw [if_neg (by simp)]
  · rw [if_neg hc]
    rw [Bool.not_eq_true] at hc
    rw [hc]
    by_cases hv : (vL (jsOrEmpty i.link []) && vD (jsOrEmpty i.pubDate [])) = true
    · rw [if_pos hv, if_pos (by simp [hv])]
    · rw [if_neg hv, if_neg (by simp [Bool.and_eq_true] at hv ⊢; exact hv)]

theorem assemble_eq_filter_map (vL vD : Str → Bool) (items : List RawItem) :
    assemble vL vD items = (items.filter (keepItem vL vD)).map normalizeItem := by
  induction items with
  | nil => rfl
  | cons i t ih =>
    rw [assemble, List.filterMap_cons, List.filter_cons]
    by_cases hk : keepItem vL vD i = true
    · rw [processItem_eq_ite, if_pos hk, hk, if_pos rfl, List.map_cons]
      rw [assemble] at ih
      rw [ih]
    · rw [processItem_eq_ite, if_neg hk]
      rw [Bool.not_eq_true] at hk
      rw [hk, if_neg (by simp)]
      rw [assemble] at ih
      exact ih

theorem mem_assemble_keep (vL vD : Str → Bool) (items : List RawItem) (o : RSSItem)
    (ho : o ∈ assemble vL vD items) :
    ∃ i, i ∈ items ∧ keepItem vL vD i = true ∧ o = normalizeItem i := by
  rw [assemble] at ho
  obtain ⟨i, hi, hp⟩ := List.mem_filterMap.mp ho
  rw [processItem_eq_ite] at hp
  by_cases hk : keepItem vL vD i = true
  · rw [if_pos hk, Option.some.injEq] at hp
    exact ⟨i, hi, hk, hp.symm⟩
  · rw [if_neg hk] at hp
    cases hp

theorem processItem_fields (vL vD : Str → Bool) (t l p : Str) (cs c : Option Str)
    (hc : containsJavaScript (jsOrEmpty c (jsOrEmpty cs [])) = false)
    (hvl : vL l = true) (hvd : vD p = true) :
    processItem vL vD ⟨some t, some l, some p, cs, c⟩ = some ⟨t, l, p, cs, c⟩ := by
  rw [processItem]
  rw [show effectiveContent ⟨some t, some l, some p, cs, c⟩ =
    jsOrEmpty c (jsOrEmpty cs []) from rfl]
  rw [hc, if_neg (by simp)]
  simp only [jsOrEmpty_some_nil, hvl, hvd, Bool.and_self, if_true]

/-- Re-running the map callback on an item it produced returns the item
unchanged. -/
theorem processItem_roundtrip (vL vD : Str → Bool) (i : RawItem) (o : RSSItem)
    (h : processItem vL vD i = some o) :
    processItem vL vD ⟨some o.title, some o.link, some o.pubDate,
      o.contentSnippet, o.content⟩ = some o := by
  rw [processItem_eq_ite] at h
  by_cases hk : keepItem vL vD i = true
  · rw [if_pos hk, Option.some.injEq] at h
    rw [keepItem, Bool.and_eq_true, Bool.and_eq_true, Bool.not_eq_true'] at hk
    obtain ⟨hc, hvl, hvd⟩ := hk
    subst h
    exact processItem_fields vL vD _ _ _ _ _ hc hvl hvd
  · rw [if_neg hk] at h
    cases h

/-- A `filterMap` whose successful results re-enter it unchanged is a
left identity for one more round. -/
theorem filterMap_roundtrip {α β : Type} (f : α → Option β) (g : β → α)
    (hfg : ∀ i o, f i = some o → f (g o) = some o) (l : List α) :
    ((l.filterMap f).map g).filterMap f = l.filterMap f := by
  induction l with
  | nil => rfl
  | cons a t ih =>
    rw [List.filterMap_cons]
    cases hfa : f a with
    | none => exact ih
    | some b =>
      show ((b :: t.filterMap f).map g).filterMap f = b :: t.filterMap f
      rw [List.map_cons, List.filterMap_cons, hfg a b hfa, ih]

theorem lowerStr_append (a b : Str) : lowerStr (a ++ b) = lowerStr a ++ lowerStr b :=
  List.map_append lowerChar a b

theorem lowerStr_cons (c : Char) (s : Str) : lowerStr (c :: s) = lowerChar c :: lowerStr s :=
  rfl

/-!
## Claims
-/

/-- C3: `classify` is a total function on text: it returns REJECTED if
and only if at least one of the four rule families matches
case-insensitively (an opening `<script` tag boundary followed by
whitespace or `>`, the literal scheme `javascript:`, a word-bounded
enumerated event-handler name followed by optional whitespace and `=`,
or a word-bounded `eval`/`setTimeout`/`setInterval` followed by optional
whitespace and `(`); otherwise SAFE, and empty content is SAFE. -/
theorem claim_C3_classifier_iff :
    (∀ s : Str, containsJavaScript s = true ↔ SpecRejected s) ∧
      containsJavaScript [] = false :=
  ⟨containsJavaScript_iff_spec, rfl⟩

/-- C4: event-handler detection is word-bounded: any occurrence of an
enumerated handler name preceded by a word boundary and followed by
optional whitespace and `=` is REJECTED, while `buttonclick=`, whose
`onclick` occurrence is not word-bounded (and which matches no other
rule), is SAFE. -/
theorem claim_C4_word_bounded :
    (∀ (s u w v nm : Str), nm ∈ eventHandlers →
        s = u ++ (nm ++ (w ++ '=' :: v)) → w.all jsWs = true →
        (∀ c, u.getLast? = some c → wordChar c = false) →
        containsJavaScript s = true) ∧
      containsJavaScript ("buttonclick=".toList) = false := by
  constructor
  · intro s u w v nm hmem hs hw hb
    subst hs
    rw [containsJavaScript_iff_spec]
    refine Or.inr (Or.inr (Or.inl ⟨nm, hmem, ?_⟩))
    have hfixname : lowerStr nm = nm := by
      have hall : eventHandlers.all (fun x => lowerStr x == x) = true := by decide
      exact beq_iff_eq.mp (List.all_eq_true.mp hall nm hmem)
    have hfixw : lowerStr w = w := lowerStr_of_all_ws hw
    refine ⟨lowerStr u, w, lowerStr v, ?_, hw, ?_⟩
    · rw [lowerStr_append, lowerStr_append, lowerStr_append, lowerStr_cons]
      rw [hfixname, hfixw, show lowerChar '=' = '=' by decide]
    · intro c hc
      rw [show lowerStr u = u.map lowerChar from rfl, List.getLast?_map] at hc
      cases hu : u.getLast? with
      | none => rw [hu] at hc; cases hc
      | some c' =>
        rw [hu, Option.map_some', Option.some.injEq] at hc
        have hnw : wordChar c' = false := hb c' hu
        rw [← hc, lowerChar_of_nonword hnw]
        exact hnw
  · decide

/-- C1 (code bug): for the unparsable timestamp `"not-a-date"` the
source does NOT fall back to the original text: `new Date` never throws,
so the `catch` fallback is dead and the `NaN` getters flow through every
bucket comparison (all false) into the final `years` branch, producing
`"NaN years ago"` and the Invalid-Date rendering `"Invalid Date"`
instead of `"not-a-date"` in both fields. -/
theorem claim_C1_unparsable_not_original :
    formatDate ("not-a-date".toList) none ⟨2024, 0, 15, 37800000⟩ =
      ⟨"NaN years ago".toList, "Invalid Date".toList⟩ ∧
      ("NaN years ago".toList : Str) ≠ "not-a-date".toList := by
  constructor
  · decide
  · decide

/-- C5: for a parsed timestamp not later than `now` the relative label
is selected by the first matching strict threshold of the ladder
(seconds < 60 → "Just now", then minutes < 60, hours < 24, days < 7,
weeks < 4, months < 12, otherwise years), pluralizing the unit unless
the count is exactly 1; in particular exactly 60 elapsed seconds yield
"1 minute ago", not "Just now". -/
theorem claim_C5_ladder (ds : Str) (parsedD now : JSDate)
    (h1 : ds ≠ []) (h2 : getTime parsedD ≤ getTime now) :
    (formatDate ds (some parsedD) now).relativeTime = relLabelSpec parsedD now ∧
      (getTime now - getTime parsedD = 60000 →
        (formatDate ds (some parsedD) now).relativeTime = "1 minute ago".toList) := by
  refine ⟨formatDate_rel_eq ds parsedD now h1 h2, fun h60 => ?_⟩
  rw [formatDate_rel_eq ds parsedD now h1 h2, relLabelSpec, h60]
  have hsecs : ((60000 : Int).fdiv 1000) = 60 := by decide
  have hmins : ((60 : Int).fdiv 60) = 1 := by decide
  simp only [hsecs, hmins]
  rw [if_neg (by decide), if_pos (by decide)]
  decide

theorem claim_C5_witness :
    (formatDate ("x".toList) (some ⟨2024, 0, 15, 0⟩) ⟨2024, 0, 15, 60000⟩).relativeTime =
      "1 minute ago".toList :=
  (claim_C5_ladder ("x".toList) ⟨2024, 0, 15, 0⟩ ⟨2024, 0, 15, 60000⟩
    (by decide) (by decide)).2 (by decide)

/-- C6: the whole-months count is the naive count
`(now.year − parsed.year) * 12 + (now.month − parsed.month)`,
decremented when `now` at midnight is before the anniversary built from
`parsed`'s day-of-month in `now`'s month (day overflow rolling into the
next month, not clamped), then clamped at zero; in particular for
parsed = 2023-01-31 and now = 2023-02-28 (noon) day 31 rolls to a
March 3 anniversary, which is after Feb 28, so the count is 0. -/
theorem claim_C6_months :
    (∀ parsedD now : JSDate,
        calculateAnniversaryBasedDiff (some parsedD) now .month =
          some (monthsSpec parsedD now)) ∧
      calculateAnniversaryBasedDiff (some ⟨2023, 0, 31, 0⟩) ⟨2023, 1, 28, 43200000⟩ .month =
        some 0 :=
  ⟨calc_month_eq, by decide⟩

/-- C7: for a timestamp parsed strictly later than `now`, the result is
the fixed literal "in the future" together with the full calendar
rendering of the parsed instant — no elapsed bucket is computed, so no
negative count can appear. -/
theorem claim_C7_future (ds : Str) (parsedD now : JSDate)
    (h1 : ds ≠ []) (h2 : getTime now < getTime parsedD) :
    formatDate ds (some parsedD) now =
      ⟨"in the future".toList, toLocaleRender parsedD⟩ := by
  rw [formatDate, if_neg (by simp [List.isEmpty_iff, h1])]
  simp only [jGetTime, Option.map_some']
  rw [if_pos (by simp only [jgt, decide_eq_true_eq]; exact h2)]
  rfl

theorem claim_C7_witness :
    formatDate ("x".toList) (some ⟨2024, 0, 15, 37800000⟩) ⟨2023, 5, 20, 0⟩ =
      ⟨"in the future".toList, toLocaleRender ⟨2024, 0, 15, 37800000⟩⟩ :=
  claim_C7_future ("x".toList) ⟨2024, 0, 15, 37800000⟩ ⟨2023, 5, 20, 0⟩
    (by decide) (by decide)

theorem createStoryLink_eq_true {urlOk : Str → Bool} {s : Str}
    (h : createStoryLink urlOk s = true) : urlOk s = true ∧ s ≠ [] := by
  cases s with
  | nil =>
    rw [show createStoryLink urlOk [] = false from rfl] at h
    cases h
  | cons a t => exact ⟨h, by simp⟩

theorem createDateString_eq_true {dateOk : Str → Bool} {s : Str}
    (h : createDateString dateOk s = true) : dateOk s = true ∧ s ≠ [] := by
  cases s with
  | nil =>
    rw [show createDateString dateOk [] = false from rfl] at h
    cases h
  | cons a t => exact ⟨h, by simp⟩

/-- An item without a link is never kept: the defaulted empty link is
rejected by `createStoryLink` before any URL parser is consulted. -/
theorem keepItem_no_link (urlOk dateOk : Str → Bool) (i : RawItem) (h : i.link = none) :
    keepItem (createStoryLink urlOk) (createDateString dateOk) i = false := by
  rw [keepItem, h]
  rw [show jsOrEmpty (none : Option Str) [] = [] from rfl]
  rw [show createStoryLink urlOk [] = false from rfl]
  simp

/-- An item without a timestamp is never kept: the defaulted empty
timestamp is rejected by `createDateString` before any date parser is
consulted. -/
theorem keepItem_no_pubDate (urlOk dateOk : Str → Bool) (i : RawItem) (h : i.pubDate = none) :
    keepItem (createStoryLink urlOk) (createDateString dateOk) i = false := by
  rw [keepItem, h]
  rw [show jsOrEmpty (none : Option Str) [] = [] from rfl]
  rw [show createDateString dateOk [] = false from rfl]
  simp

/-- C2 (counterexample): a raw item with SAFE content but a missing
link is dropped by the assembler: the defaulted link is the empty
string, which `createStoryLink` rejects before ever consulting the URL
parser (so this run is the same for every oracle, including the real
`new URL`), contradicting the claim that the item is kept with the
missing field as the empty string. -/
theorem claim_C2_counterexample :
    assemble (createStoryLink anyStr) (createDateString anyStr)
        [⟨some ("Title".toList), none, some ("2024-01-15T10:30:00Z".toList),
          none, some ("<p>ok</p>".toList)⟩] = [] ∧
      containsJavaScript (effectiveContent ⟨some ("Title".toList), none,
        some ("2024-01-15T10:30:00Z".toList), none, some ("<p>ok</p>".toList)⟩) = false := by
  constructor
  · decide
  · decide

/-- C2 (amended): for a SAFE item only a missing *title* is replaced by
the empty string and passed through; the defaulted link and timestamp
must additionally pass `createStoryLink` / `createDateString`, and an
item whose link or timestamp is missing is dropped at this stage for
every URL/date parser, because the factories reject the defaulted empty
string themselves. -/
theorem claim_C2_missing_fields :
    (∀ (urlOk dateOk : Str → Bool) (i : RawItem), i.title = none →
        containsJavaScript (effectiveContent i) = false →
        createStoryLink urlOk (jsOrEmpty i.link []) = true →
        createDateString dateOk (jsOrEmpty i.pubDate []) = true →
        assemble (createStoryLink urlOk) (createDateString dateOk) [i] =
          [⟨[], jsOrEmpty i.link [], jsOrEmpty i.pubDate [],
            i.contentSnippet, i.content⟩]) ∧
      (∀ (urlOk dateOk : Str → Bool) (i : RawItem), i.link = none →
        assemble (createStoryLink urlOk) (createDateString dateOk) [i] = []) ∧
      (∀ (urlOk dateOk : Str → Bool) (i : RawItem), i.pubDate = none →
        assemble (createStoryLink urlOk) (createDateString dateOk) [i] = []) := by
  refine ⟨fun urlOk dateOk i ht hc hvl hvd => ?_, fun urlOk dateOk i hl => ?_,
    fun urlOk dateOk i hp => ?_⟩
  · rw [assemble, List.filterMap_cons, List.filterMap_nil, processItem_eq_ite,
      if_pos (show keepItem (createStoryLink urlOk) (createDateString dateOk) i = true by
        simp [keepItem, hc, hvl, hvd])]
    rw [normalizeItem, ht]
    rfl
  · rw [assemble, List.filterMap_cons, List.filterMap_nil, processItem_eq_ite,
      if_neg (by rw [keepItem_no_link urlOk dateOk i hl]; simp)]
  · rw [assemble, List.filterMap_cons, List.filterMap_nil, processItem_eq_ite,
      if_neg (by rw [keepItem_no_pubDate urlOk dateOk i hp]; simp)]

theorem claim_C2_witness :
    assemble (createStoryLink anyStr) (createDateString anyStr)
        [⟨none, some ("https://example.com/a".toList), some ("2024-01-15".toList),
          none, some ("<p>ok</p>".toList)⟩] =
      [⟨[], jsOrEmpty (some ("https://example.com/a".toList)) [],
        jsOrEmpty (some ("2024-01-15".toList)) [], none, some ("<p>ok</p>".toList)⟩] :=
  claim_C2_missing_fields.1 anyStr anyStr
    ⟨none, some ("https://example.com/a".toList), some ("2024-01-15".toList),
      none, some ("<p>ok</p>".toList)⟩
    rfl (by decide) (by decide) (by decide)

/-- C8 (counterexample): on the claim's literal example — three items
carrying only content — the assembler output is empty, not the 1st and
3rd items: the missing links and timestamps default to the empty string,
which the branded-type factories reject before consulting any parser
(this run is the same for every oracle, including the real
`new URL` / `new Date`), even though the 1st item's content is SAFE. -/
theorem claim_C8_counterexample :
    assemble (createStoryLink anyStr) (createDateString anyStr)
        [⟨none, none, none, none, some ("<p>ok</p>".toList)⟩,
          ⟨none, none, none, none, some ("<script>bad</script>".toList)⟩,
          ⟨none, none, none, none, some ("<p>ok2</p>".toList)⟩] = [] ∧
      containsJavaScript ("<p>ok</p>".toList) = false := by
  constructor
  · decide
  · decide

/-- C8 (amended): the output of `assemble` is exactly the
order-preserving subsequence of items whose effective content classifies
SAFE *and* whose defaulted link and timestamp pass the branded-type
factories, each kept item normalized; for every URL/date parser that
accepts the example's links and timestamp (as the real
`new URL` / `new Date` do), the example input extended with those fields
yields exactly the normalized 1st and 3rd items in order — the rejected
2nd item aborts nothing — while the claim's original link-less example
is dropped entirely, for every parser. -/
theorem claim_C8_filter :
    (∀ (vL vD : Str → Bool) (items : List RawItem),
        assemble vL vD items = (items.filter (keepItem vL vD)).map normalizeItem) ∧
      (∀ urlOk dateOk : Str → Bool,
        urlOk ("https://example.com/1".toList) = true →
        urlOk ("https://example.com/3".toList) = true →
        dateOk ("2024-01-15".toList) = true →
        assemble (createStoryLink urlOk) (createDateString dateOk)
            [⟨none, some ("https://example.com/1".toList), some ("2024-01-15".toList),
                none, some ("<p>ok</p>".toList)⟩,
              ⟨none, some ("https://example.com/2".toList), some ("2024-01-15".toList),
                none, some ("<script>bad</script>".toList)⟩,
              ⟨none, some ("https://example.com/3".toList), some ("2024-01-15".toList),
                none, some ("<p>ok2</p>".toList)⟩] =
          [⟨[], "https://example.com/1".toList, "2024-01-15".toList, none,
              some ("<p>ok</p>".toList)⟩,
            ⟨[], "https://example.com/3".toList, "2024-01-15".toList, none,
              some ("<p>ok2</p>".toList)⟩]) ∧
      (∀ urlOk dateOk : Str → Bool,
        assemble (createStoryLink urlOk) (createDateString dateOk)
            [⟨none, none, none, none, some ("<p>ok</p>".toList)⟩,
              ⟨none, none, none, none, some ("<script>bad</script>".toList)⟩,
              ⟨none, none, none, none, some ("<p>ok2</p>".toList)⟩] = []) := by
  refine ⟨assemble_eq_filter_map, fun urlOk dateOk h1 h3 hd => ?_, fun urlOk dateOk => ?_⟩
  · have hk1 : keepItem (createStoryLink urlOk) (createDateString dateOk)
        ⟨none, some ("https://example.com/1".toList), some ("2024-01-15".toList),
          none, some ("<p>ok</p>".toList)⟩ = true := by
      simp only [keepItem, effectiveContent, jsOrEmpty_some_nil]
      rw [show (jsOrEmpty (some ("<p>ok</p>".toList)) (jsOrEmpty none [])) =
        "<p>ok</p>".toList from rfl]
      rw [show containsJavaScript ("<p>ok</p>".toList) = false by decide]
      rw [show createStoryLink urlOk ("https://example.com/1".toList) =
        urlOk ("https://example.com/1".toList) from rfl]
      rw [show createDateString dateOk ("2024-01-15".toList) =
        dateOk ("2024-01-15".toList) from rfl]
      rw [h1, hd]
      rfl
    have hk2 : keepItem (createStoryLink urlOk) (createDateString dateOk)
        ⟨none, some ("https://example.com/2".toList), some ("2024-01-15".toList),
          none, some ("<script>bad</script>".toList)⟩ = false := by
      simp only [keepItem, effectiveContent, jsOrEmpty_some_nil]
      rw [show (jsOrEmpty (some ("<script>bad</script>".toList)) (jsOrEmpty none [])) =
        "<script>bad</script>".toList from rfl]
      rw [show containsJavaScript ("<script>bad</script>".toList) = true by decide]
      rfl
    have hk3 : keepItem (createStoryLink urlOk) (createDateString dateOk)
        ⟨none, some ("https://example.com/3".toList), some ("2024-01-15".toList),
          none, some ("<p>ok2</p>".toList)⟩ = true := by
      simp only [keepItem, effectiveContent, jsOrEmpty_some_nil]
      rw [show (jsOrEmpty (some ("<p>ok2</p>".toList)) (jsOrEmpty none [])) =
        "<p>ok2</p>".toList from rfl]
      rw [show containsJavaScript ("<p>ok2</p>".toList) = false by decide]
      rw [show createStoryLink urlOk ("https://example.com/3".toList) =
        urlOk ("https://example.com/3".toList) from rfl]
      rw [show createDateString dateOk ("2024-01-15".toList) =
        dateOk ("2024-01-15".toList) from rfl]
      rw [h3, hd]
      rfl
    rw [assemble, List.filterMap_cons, processItem_eq_ite, if_pos hk1]
    rw [List.filterMap_cons, processItem_eq_ite, if_neg (by rw [hk2]; simp)]
    rw [List.filterMap_cons, processItem_eq_ite, if_pos hk3, List.filterMap_nil]
    rfl
  · rw [assemble, List.filterMap_cons, processItem_eq_ite,
      if_neg (by rw [keepItem_no_link urlOk dateOk _ rfl]; simp)]
    rw [List.filterMap_cons, processItem_eq_ite,
      if_neg (by rw [keepItem_no_link urlOk dateOk _ rfl]; simp)]
    rw [List.filterMap_cons, processItem_eq_ite,
      if_neg (by rw [keepItem_no_link urlOk dateOk _ rfl]; simp), List.filterMap_nil]

theorem claim_C8_witness :
    assemble (createStoryLink anyStr) (createDateString anyStr)
        [⟨none, some ("https://example.com/1".toList), some ("2024-01-15".toList),
            none, some ("<p>ok</p>".toList)⟩,
          ⟨none, some ("https://example.com/2".toList), some ("2024-01-15".toList),
            none, some ("<script>bad</script>".toList)⟩,
          ⟨none, some ("https://example.com/3".toList), some ("2024-01-15".toList),
            none, some ("<p>ok2</p>".toList)⟩] =
      [⟨[], "https://example.com/1".toList, "2024-01-15".toList, none,
          some ("<p>ok</p>".toList)⟩,
        ⟨[], "https://example.com/3".toList, "2024-01-15".toList, none,
          some ("<p>ok2</p>".toList)⟩] :=
  claim_C8_filter.2.1 anyStr anyStr (by decide) (by decide) (by decide)

/-- C9: the assembler is idempotent — feeding its own output (with the
field shape of a raw item restored) through the same pipeline returns
the same sequence unchanged, for any validators. -/
theorem claim_C9_idempotent (vL vD : Str → Bool) (items : List RawItem) :
    assemble vL vD ((assemble vL vD items).map
        (fun o => ⟨some o.title, some o.link, some o.pubDate,
          o.contentSnippet, o.content⟩)) =
      assemble vL vD items := by
  simp only [assemble]
  exact filterMap_roundtrip (processItem vL vD) _ (processItem_roundtrip vL vD) items

/-- C10: for every URL parser and every date parser, each item of the
assembler's output carries a link accepted by `createStoryLink` (the
parser accepts it and it is nonempty) and a timestamp accepted by
`createDateString` — instantiated at the real `new URL` / `new Date`,
every output link parses as a valid URL and every output pubDate parses
to a valid calendar instant; items failing either validation are
silently dropped, and the empty strings produced by missing fields are
rejected by the factories themselves — a strictly stronger filter than
the safety classification alone. -/
theorem claim_C10_validated :
    (∀ (urlOk dateOk : Str → Bool) (items : List RawItem) (o : RSSItem),
        o ∈ assemble (createStoryLink urlOk) (createDateString dateOk) items →
        (urlOk o.link = true ∧ o.link ≠ []) ∧
          (dateOk o.pubDate = true ∧ o.pubDate ≠ [])) ∧
      (∀ urlOk : Str → Bool, createStoryLink urlOk [] = false) ∧
      (∀ dateOk : Str → Bool, createDateString dateOk [] = false) := by
  refine ⟨fun urlOk dateOk items o ho => ?_, fun urlOk => rfl, fun dateOk => rfl⟩
  obtain ⟨i, -, hk, rfl⟩ := mem_assemble_keep _ _ items o ho
  rw [keepItem, Bool.and_eq_true, Bool.and_eq_true] at hk
  exact ⟨createStoryLink_eq_true hk.2.1, createDateString_eq_true hk.2.2⟩

theorem claim_C10_witness :
    (anyStr ("https://example.com/a".toList) = true ∧
        ("https://example.com/a".toList : Str) ≠ []) ∧
      (anyStr ("2024-01-15".toList) = true ∧ ("2024-01-15".toList : Str) ≠ []) :=
  claim_C10_validated.1 anyStr anyStr
    [⟨some ("t".toList), some ("https://example.com/a".toList),
      some ("2024-01-15".toList), none, none⟩]
    ⟨"t".toList, "https://example.com/a".toList, "2024-01-15".toList, none, none⟩
    (by decide)

theorem claim_C4_witness :
    containsJavaScript ("<div onclick=1>".toList) = true :=
  claim_C4_word_bounded.1 ("<div onclick=1>".toList) ("<div ".toList) []
    ("1>".toList) ("onclick".toList) (by decide) (by decide) (by decide)
    (fun c hc => by
      rw [show ("<div ".toList).getLast? = some ' ' from rfl, Option.some.injEq] at hc
      rw [← hc]
      decide)
